import Mathlib

/-!
# Verification of the csv_test transaction engine

Shallow embedding of `src/main.rs` from cholcombe973/csv_test: a toy
transaction engine that buffers per-client operations and replays them
into final balances (`process_account`), with a storage-selecting `run`
driver.

Amounts are carried by the Rust code as `f32`; here they are modelled as
exact rationals (`ℚ`), the "signed fixed-precision amounts" of the data
model, so the algebra of the state machine can be stated exactly.
Transaction ids (`u32`) and client ids (`u16`) are modelled as `Nat`;
no arithmetic is ever performed on them, only equality tests, so no
wrap-around can occur.
-/

/-- The five-variant operation type (Rust enum `TransactionOp`):
value-moving ops carry a transaction id and an amount, control ops carry
only the referenced transaction id. -/
inductive TransactionOp where
  | Deposit (tx_id : Nat) (amount : ℚ)
  | Withdraw (tx_id : Nat) (amount : ℚ)
  | Dispute (tx_id : Nat)
  | Resolve (tx_id : Nat)
  | Chargeback (tx_id : Nat)
deriving DecidableEq, Repr

/-- Per-client balance state plus the buffered log of pending operations
(Rust struct `Account`). -/
structure Account where
  id : Nat
  available_funds : ℚ
  held_funds : ℚ
  total_funds : ℚ
  locked : Bool
  in_dispute : Bool
  last_processed_transaction : Nat
  transaction_log : List TransactionOp
deriving DecidableEq, Repr

/-- Rust `find_transaction`: scan the pending log for the first entry whose
transaction id matches, regardless of operation kind. -/
def find_transaction (id : Nat) (transaction_log : List TransactionOp) :
    Option TransactionOp :=
  transaction_log.find? (fun transaction =>
    match transaction with
    | .Deposit tx_id _ => tx_id == id
    | .Withdraw tx_id _ => tx_id == id
    | .Dispute tx_id => tx_id == id
    | .Resolve tx_id => tx_id == id
    | .Chargeback tx_id => tx_id == id)

/-- Rust `find_transaction_amount`: extract an amount only from a Deposit
or Withdraw; any other kind yields none. -/
def find_transaction_amount (transaction_op : TransactionOp) : Option ℚ :=
  match transaction_op with
  | .Deposit _ amount => some amount
  | .Withdraw _ amount => some amount
  | _ => none

/-- One iteration of the `for transaction in &account.transaction_log` loop
body of `process_account`. `log` is the pending log of the account, which the
Rust loop borrows immutably for the whole replay (it is never mutated
before the final `clear`). `none` models the early `return` taken when a
Dispute/Resolve/Chargeback lookup fails. -/
def applyOp (log : List TransactionOp) (account : Account) :
    TransactionOp → Option Account
  | .Deposit tx_id amount =>
    some { account with
      available_funds := account.available_funds + amount
      total_funds := account.total_funds + amount
      last_processed_transaction := tx_id }
  | .Withdraw tx_id amount =>
    some { account with
      available_funds := account.available_funds - amount
      total_funds := account.total_funds - amount
      last_processed_transaction := tx_id }
  | .Dispute tx_id =>
    match find_transaction tx_id log with
    | none => none
    | some dispute_op =>
      match find_transaction_amount dispute_op with
      | none => none
      | some amount =>
        some { account with
          in_dispute := true
          available_funds := account.available_funds - amount
          held_funds := account.held_funds + amount
          last_processed_transaction := tx_id }
  | .Resolve tx_id =>
    match find_transaction tx_id log with
    | none => none
    | some resolve_op =>
      match find_transaction_amount resolve_op with
      | none => none
      | some amount =>
        some { account with
          held_funds := account.held_funds - amount
          available_funds := account.available_funds + amount }
  | .Chargeback tx_id =>
    match find_transaction tx_id log with
    | none => none
    | some chargeback_op =>
      match find_transaction_amount chargeback_op with
      | none => none
      | some amount =>
        some { account with
          held_funds := account.held_funds - amount
          total_funds := account.total_funds - amount
          locked := true
          last_processed_transaction := tx_id }

/-- The replay loop of `process_account` over the remaining operations
`ops`. On an early `return` (lookup failure) the account is returned as
accumulated so far, with its log untouched; when the loop runs to
completion the log is cleared (`account.transaction_log.clear()`). -/
def replay (log : List TransactionOp) (account : Account) :
    List TransactionOp → Account
  | [] => { account with transaction_log := [] }
  | t :: rest =>
    match applyOp log account t with
    | none => account
    | some account1 => replay log account1 rest

/-- Rust `process_account`: replay the pending log of the account itself against
its balances. -/
def process_account (account : Account) : Account :=
  replay account.transaction_log account account.transaction_log

/-- Applying a sequence of loop iterations when none of them takes the
early return; `none` as soon as one aborts. Used to say "these operations
were all fully applied". -/
def applySeq (log : List TransactionOp) (account : Account) :
    List TransactionOp → Option Account
  | [] => some account
  | t :: rest =>
    match applyOp log account t with
    | none => none
    | some account1 => applySeq log account1 rest

-- Sanity checks against the unit tests that ship with the repository.

def testAccount (log : List TransactionOp) : Account :=
  { id := 1, available_funds := 0, held_funds := 0, total_funds := 0,
    locked := false, in_dispute := false, last_processed_transaction := 0,
    transaction_log := log }

example :
    process_account (testAccount
      [.Deposit 1 100, .Withdraw 2 50, .Withdraw 3 25]) =
    { id := 1, available_funds := 25, held_funds := 0, total_funds := 25,
      locked := false, in_dispute := false,
      last_processed_transaction := 3, transaction_log := [] } := by
  simp [process_account, replay, applyOp, find_transaction,
    find_transaction_amount, testAccount]
  norm_num

example :
    process_account (testAccount
      [.Deposit 1 100, .Deposit 2 100, .Withdraw 3 50, .Dispute 2]) =
    { id := 1, available_funds := 50, held_funds := 100, total_funds := 150,
      locked := false, in_dispute := true,
      last_processed_transaction := 2, transaction_log := [] } := by
  simp [process_account, replay, applyOp, find_transaction,
    find_transaction_amount, testAccount]
  norm_num

example :
    (process_account (testAccount
      [.Deposit 1 100, .Deposit 2 100, .Withdraw 3 50, .Dispute 2,
       .Chargeback 2])).available_funds = 50 ∧
    (process_account (testAccount
      [.Deposit 1 100, .Deposit 2 100, .Withdraw 3 50, .Dispute 2,
       .Chargeback 2])).locked = true := by
  constructor <;>
    simp [process_account, replay, applyOp, find_transaction,
      find_transaction_amount, testAccount] <;>
    norm_num

example :
    (process_account (testAccount
      [.Deposit 1 100, .Deposit 2 100, .Withdraw 3 50, .Dispute 2,
       .Resolve 2])).available_funds = 150 := by
  simp [process_account, replay, applyOp, find_transaction,
    find_transaction_amount, testAccount]
  norm_num

/-! ## The `run` driver

The Rust `run` takes the backend-selection boolean `one_pass` and the
record stream. In the source the entire in-memory (`one_pass == true`)
branch is commented out, so the parameter is received but never read and
every run takes the sled-backed path: ingest each record into the store
keyed by client id, mark the client in the 65535-bit presence array, then
emit one output row per marked client in ascending id order, skipping
(with a diagnostic) any marked client missing from the store. -/

/-- The five CSV record kinds (Rust enum `TransactionType`). -/
inductive TransactionType where
  | Deposit
  | Withdrawal
  | Dispute
  | Resolve
  | Chargeback
deriving DecidableEq, Repr

/-- One CSV record (Rust struct `RawRecord`). -/
structure RawRecord where
  transaction_type : TransactionType
  client : Nat
  transaction : Nat
  amount : ℚ
deriving DecidableEq, Repr

/-- Rust `impl From<RawRecord> for TransactionOp`. -/
def TransactionOp.ofRecord (record : RawRecord) : TransactionOp :=
  match record.transaction_type with
  | .Deposit => .Deposit record.transaction record.amount
  | .Withdrawal => .Withdraw record.transaction record.amount
  | .Dispute => .Dispute record.transaction
  | .Resolve => .Resolve record.transaction
  | .Chargeback => .Chargeback record.transaction

/-- The fields printed by the `Display` impl for `Account`:
`id, available, held, total, locked`. -/
def outputRow (account : Account) : Nat × ℚ × ℚ × ℚ × Bool :=
  (account.id, account.available_funds, account.held_funds,
   account.total_funds, account.locked)

/-- A fresh zero-initialized account, as built by the `None` arm of the
sled `get` in `run` (and by `store_record`). -/
def emptyAccount (client : Nat) : Account :=
  { id := client, available_funds := 0, held_funds := 0, total_funds := 0,
    locked := false, last_processed_transaction := 0, in_dispute := false,
    transaction_log := [] }

/-- One iteration of the ingestion loop of `run`: load the addressed
account from the store (or create it), append the record as a
`TransactionOp` to its pending log, and write it back. The sled store is
modelled as a map from client id to an optional account. -/
def ingestRecord (sled_db : Nat → Option Account) (record : RawRecord) :
    Nat → Option Account :=
  let account :=
    match sled_db record.client with
    | some account => account
    | none => emptyAccount record.client
  let account := { account with
    transaction_log :=
      account.transaction_log ++ [TransactionOp.ofRecord record] }
  fun k => if k = record.client then some account else sled_db k

/-- Rust `run`: the in-memory branch is commented out in the source, so
`one_pass` is never read and both settings execute the persistent path.
The 65535-bit `client_accounts` presence array iterated by `iter_ones`
becomes a filter of the ascending id range by membership among the
ingested client ids; a marked client with no stored record is skipped. -/
def run (one_pass : Bool) (records : List RawRecord) :
    List (Nat × ℚ × ℚ × ℚ × Bool) :=
  let sled_db := records.foldl ingestRecord (fun _ => none)
  let client_accounts := records.map (fun record => record.client)
  ((List.range 65535).filter
      (fun client => client_accounts.contains client)).filterMap
    (fun client =>
      match sled_db client with
      | none => none
      | some account => some (outputRow (process_account account)))

/-! ## Helper lemmas -/

/-- The Dispute arm of the loop body as an Option pipeline: succeed exactly
when the log lookup finds an entry with an extractable amount. -/
theorem applyOp_Dispute (log : List TransactionOp) (account : Account)
    (tx_id : Nat) :
    applyOp log account (.Dispute tx_id) =
      ((find_transaction tx_id log).bind find_transaction_amount).map
        (fun amount =>
          { account with
            in_dispute := true
            available_funds := account.available_funds - amount
            held_funds := account.held_funds + amount
            last_processed_transaction := tx_id }) := by
  simp only [applyOp]
  cases find_transaction tx_id log with
  | none => rfl
  | some op =>
    cases hA : find_transaction_amount op <;> simp [hA]

/-- The Resolve arm of the loop body as an Option pipeline. -/
theorem applyOp_Resolve (log : List TransactionOp) (account : Account)
    (tx_id : Nat) :
    applyOp log account (.Resolve tx_id) =
      ((find_transaction tx_id log).bind find_transaction_amount).map
        (fun amount =>
          { account with
            held_funds := account.held_funds - amount
            available_funds := account.available_funds + amount }) := by
  simp only [applyOp]
  cases find_transaction tx_id log with
  | none => rfl
  | some op =>
    cases hA : find_transaction_amount op <;> simp [hA]

/-- The Chargeback arm of the loop body as an Option pipeline. -/
theorem applyOp_Chargeback (log : List TransactionOp) (account : Account)
    (tx_id : Nat) :
    applyOp log account (.Chargeback tx_id) =
      ((find_transaction tx_id log).bind find_transaction_amount).map
        (fun amount =>
          { account with
            held_funds := account.held_funds - amount
            total_funds := account.total_funds - amount
            locked := true
            last_processed_transaction := tx_id }) := by
  simp only [applyOp]
  cases find_transaction tx_id log with
  | none => rfl
  | some op =>
    cases hA : find_transaction_amount op <;> simp [hA]

/-- The invariant of the data model: total funds split into available and
held funds. -/
def balanced (account : Account) : Prop :=
  account.total_funds = account.available_funds + account.held_funds

/-- Each fully-applied loop iteration preserves the balance invariant. -/
theorem applyOp_balanced {log : List TransactionOp} {a a1 : Account}
    {t : TransactionOp} (h : applyOp log a t = some a1) (hb : balanced a) :
    balanced a1 := by
  cases t with
  | Deposit tx_id amount =>
    simp only [applyOp, Option.some.injEq] at h
    subst h
    simp only [balanced] at *
    rw [hb]; ring
  | Withdraw tx_id amount =>
    simp only [applyOp, Option.some.injEq] at h
    subst h
    simp only [balanced] at *
    rw [hb]; ring
  | Dispute tx_id =>
    rw [applyOp_Dispute] at h
    cases hf : (find_transaction tx_id log).bind find_transaction_amount with
    | none => rw [hf] at h; simp at h
    | some amount =>
      rw [hf] at h
      simp only [Option.map_some', Option.some.injEq] at h
      subst h
      simp only [balanced] at *
      rw [hb]; ring
  | Resolve tx_id =>
    rw [applyOp_Resolve] at h
    cases hf : (find_transaction tx_id log).bind find_transaction_amount with
    | none => rw [hf] at h; simp at h
    | some amount =>
      rw [hf] at h
      simp only [Option.map_some', Option.some.injEq] at h
      subst h
      simp only [balanced] at *
      rw [hb]; ring
  | Chargeback tx_id =>
    rw [applyOp_Chargeback] at h
    cases hf : (find_transaction tx_id log).bind find_transaction_amount with
    | none => rw [hf] at h; simp at h
    | some amount =>
      rw [hf] at h
      simp only [Option.map_some', Option.some.injEq] at h
      subst h
      simp only [balanced] at *
      rw [hb]; ring

/-- A fully-applied sequence of loop iterations preserves the balance
invariant. -/
theorem applySeq_balanced {log : List TransactionOp}
    (ops : List TransactionOp) {a b : Account}
    (h : applySeq log a ops = some b) (hb : balanced a) : balanced b := by
  induction ops generalizing a with
  | nil =>
    simp only [applySeq, Option.some.injEq] at h
    subst h; exact hb
  | cons t rest ih =>
    simp only [applySeq] at h
    cases h1 : applyOp log a t with
    | none => rw [h1] at h; simp at h
    | some a1 =>
      rw [h1] at h
      exact ih h (applyOp_balanced h1 hb)

/-- The replay loop preserves the balance invariant, whether it completes
or takes the early return. -/
theorem replay_balanced {log : List TransactionOp} (ops : List TransactionOp)
    (a : Account) (hb : balanced a) : balanced (replay log a ops) := by
  induction ops generalizing a with
  | nil => simpa [replay, balanced] using hb
  | cons t rest ih =>
    cases h1 : applyOp log a t with
    | none => simpa [replay, h1] using hb
    | some a1 => simpa [replay, h1] using ih a1 (applyOp_balanced h1 hb)

/-- A fully-applied loop iteration never touches the pending log. -/
theorem applyOp_log {log : List TransactionOp} {a a1 : Account}
    {t : TransactionOp} (h : applyOp log a t = some a1) :
    a1.transaction_log = a.transaction_log := by
  cases t with
  | Deposit tx_id amount =>
    simp only [applyOp, Option.some.injEq] at h
    subst h; rfl
  | Withdraw tx_id amount =>
    simp only [applyOp, Option.some.injEq] at h
    subst h; rfl
  | Dispute tx_id =>
    rw [applyOp_Dispute] at h
    cases hf : (find_transaction tx_id log).bind find_transaction_amount with
    | none => rw [hf] at h; simp at h
    | some amount =>
      rw [hf] at h
      simp only [Option.map_some', Option.some.injEq] at h
      subst h; rfl
  | Resolve tx_id =>
    rw [applyOp_Resolve] at h
    cases hf : (find_transaction tx_id log).bind find_transaction_amount with
    | none => rw [hf] at h; simp at h
    | some amount =>
      rw [hf] at h
      simp only [Option.map_some', Option.some.injEq] at h
      subst h; rfl
  | Chargeback tx_id =>
    rw [applyOp_Chargeback] at h
    cases hf : (find_transaction tx_id log).bind find_transaction_amount with
    | none => rw [hf] at h; simp at h
    | some amount =>
      rw [hf] at h
      simp only [Option.map_some', Option.some.injEq] at h
      subst h; rfl

/-- When every remaining operation fully applies, the loop runs to
completion and the log is cleared. -/
theorem replay_of_applySeq_some {log : List TransactionOp}
    (ops : List TransactionOp) {a b : Account}
    (h : applySeq log a ops = some b) :
    replay log a ops = { b with transaction_log := [] } := by
  induction ops generalizing a with
  | nil =>
    simp only [applySeq, Option.some.injEq] at h
    subst h; rfl
  | cons t rest ih =>
    simp only [applySeq] at h
    cases h1 : applyOp log a t with
    | none => rw [h1] at h; simp at h
    | some a1 =>
      rw [h1] at h
      simpa [replay, h1] using ih h

/-- When some remaining operation aborts, the log of the returned account
is the original pending log, untouched. -/
theorem replay_of_applySeq_none {log : List TransactionOp}
    (ops : List TransactionOp) (a : Account)
    (h : applySeq log a ops = none) :
    (replay log a ops).transaction_log = a.transaction_log := by
  induction ops generalizing a with
  | nil => simp [applySeq] at h
  | cons t rest ih =>
    simp only [applySeq] at h
    cases h1 : applyOp log a t with
    | none => simp [replay, h1]
    | some a1 =>
      rw [h1] at h
      rw [show replay log a (t :: rest) = replay log a1 rest by
        simp [replay, h1]]
      rw [ih a1 h, applyOp_log h1]

/-- Replaying a fully-applied run of operations followed by an aborting
operation stops at the aborting operation: the rest of the log is dropped
and the state accumulated so far is returned as is. -/
theorem replay_abort {log : List TransactionOp} (applied : List TransactionOp)
    {a b : Account} (h1 : applySeq log a applied = some b)
    {c : TransactionOp} (hc : applyOp log b c = none)
    (rest : List TransactionOp) :
    replay log a (applied ++ c :: rest) = b := by
  induction applied generalizing a with
  | nil =>
    simp only [applySeq, Option.some.injEq] at h1
    subst h1
    simp [replay, hc]
  | cons t ts ih =>
    simp only [applySeq] at h1
    cases h : applyOp log a t with
    | none => rw [h] at h1; simp at h1
    | some a1 =>
      rw [h] at h1
      simpa [replay, h] using ih h1

/-- A control operation whose log lookup fails (id absent, or present only
as a non-value-moving operation) makes the loop body abort, whatever the
balances are. -/
theorem applyOp_control_none {log : List TransactionOp} {id : Nat}
    (h : (find_transaction id log).bind find_transaction_amount = none)
    (a : Account) :
    applyOp log a (.Dispute id) = none ∧
    applyOp log a (.Resolve id) = none ∧
    applyOp log a (.Chargeback id) = none := by
  refine ⟨?_, ?_, ?_⟩
  · rw [applyOp_Dispute, h]; rfl
  · rw [applyOp_Resolve, h]; rfl
  · rw [applyOp_Chargeback, h]; rfl

/-- No loop iteration ever clears the locked flag: once locked, an account
stays locked through any further fully-applied operation. -/
theorem applyOp_locked_mono {log : List TransactionOp} {a a1 : Account}
    {t : TransactionOp} (h : applyOp log a t = some a1)
    (hl : a.locked = true) : a1.locked = true := by
  cases t with
  | Deposit tx_id amount =>
    simp only [applyOp, Option.some.injEq] at h
    subst h; exact hl
  | Withdraw tx_id amount =>
    simp only [applyOp, Option.some.injEq] at h
    subst h; exact hl
  | Dispute tx_id =>
    rw [applyOp_Dispute] at h
    cases hf : (find_transaction tx_id log).bind find_transaction_amount with
    | none => rw [hf] at h; simp at h
    | some amount =>
      rw [hf] at h
      simp only [Option.map_some', Option.some.injEq] at h
      subst h; exact hl
  | Resolve tx_id =>
    rw [applyOp_Resolve] at h
    cases hf : (find_transaction tx_id log).bind find_transaction_amount with
    | none => rw [hf] at h; simp at h
    | some amount =>
      rw [hf] at h
      simp only [Option.map_some', Option.some.injEq] at h
      subst h; exact hl
  | Chargeback tx_id =>
    rw [applyOp_Chargeback] at h
    cases hf : (find_transaction tx_id log).bind find_transaction_amount with
    | none => rw [hf] at h; simp at h
    | some amount =>
      rw [hf] at h
      simp only [Option.map_some', Option.some.injEq] at h
      subst h; rfl

/-- How the code actually maintains `last_processed_transaction` over a
run of fully-applied operations: every operation except a Resolve writes
its transaction id into the field (Deposit, Withdraw and Chargeback per
the spec, but also Dispute); a Resolve leaves it alone. -/
def lastNonResolveId (current : Nat) : List TransactionOp → Nat
  | [] => current
  | .Deposit tx_id _ :: rest => lastNonResolveId tx_id rest
  | .Withdraw tx_id _ :: rest => lastNonResolveId tx_id rest
  | .Dispute tx_id :: rest => lastNonResolveId tx_id rest
  | .Resolve _ :: rest => lastNonResolveId current rest
  | .Chargeback tx_id :: rest => lastNonResolveId tx_id rest

/-- Modelled from the spec: the value `last_processed_transaction` would
hold if, as the spec states, only value-moving (Deposit/Withdraw) and
Chargeback operations updated it — Dispute and Resolve leaving it
untouched. Written from the words of the claim, for comparison with the
behavior of the code. -/
def lastValueMovingOrChargebackId (current : Nat) :
    List TransactionOp → Nat
  | [] => current
  | .Deposit tx_id _ :: rest => lastValueMovingOrChargebackId tx_id rest
  | .Withdraw tx_id _ :: rest => lastValueMovingOrChargebackId tx_id rest
  | .Dispute _ :: rest => lastValueMovingOrChargebackId current rest
  | .Resolve _ :: rest => lastValueMovingOrChargebackId current rest
  | .Chargeback tx_id :: rest => lastValueMovingOrChargebackId tx_id rest

/-- Over any fully-applied run, `last_processed_transaction` tracks
`lastNonResolveId`. -/
theorem applySeq_last {log : List TransactionOp} (ops : List TransactionOp)
    {a b : Account} (h : applySeq log a ops = some b) :
    b.last_processed_transaction =
      lastNonResolveId a.last_processed_transaction ops := by
  induction ops generalizing a with
  | nil =>
    simp only [applySeq, Option.some.injEq] at h
    subst h; rfl
  | cons t rest ih =>
    simp only [applySeq] at h
    cases h1 : applyOp log a t with
    | none => rw [h1] at h; simp at h
    | some a1 =>
      rw [h1] at h
      have htail := ih h
      cases t with
      | Deposit tx_id amount =>
        simp only [applyOp, Option.some.injEq] at h1
        subst h1
        simpa [lastNonResolveId] using htail
      | Withdraw tx_id amount =>
        simp only [applyOp, Option.some.injEq] at h1
        subst h1
        simpa [lastNonResolveId] using htail
      | Dispute tx_id =>
        rw [applyOp_Dispute] at h1
        cases hf : (find_transaction tx_id log).bind find_transaction_amount with
        | none => rw [hf] at h1; simp at h1
        | some amount =>
          rw [hf] at h1
          simp only [Option.map_some', Option.some.injEq] at h1
          subst h1
          simpa [lastNonResolveId] using htail
      | Resolve tx_id =>
        rw [applyOp_Resolve] at h1
        cases hf : (find_transaction tx_id log).bind find_transaction_amount with
        | none => rw [hf] at h1; simp at h1
        | some amount =>
          rw [hf] at h1
          simp only [Option.map_some', Option.some.injEq] at h1
          subst h1
          simpa [lastNonResolveId] using htail
      | Chargeback tx_id =>
        rw [applyOp_Chargeback] at h1
        cases hf : (find_transaction tx_id log).bind find_transaction_amount with
        | none => rw [hf] at h1; simp at h1
        | some amount =>
          rw [hf] at h1
          simp only [Option.map_some', Option.some.injEq] at h1
          subst h1
          simpa [lastNonResolveId] using htail

/-! ## Claim theorems -/

/-- Claim C1: for every account and every pending operation log, after
each fully-applied operation during replay by `process_account` the
equality `total_funds = available_funds + held_funds` holds, provided it
held in the starting state: any fully-applied run of operations keeps the
state balanced (so every intermediate state of the replay is balanced),
and the account returned by `process_account` is balanced. -/
theorem processing_preserves_balance
    (log ops : List TransactionOp) (a b : Account)
    (hb : balanced a) (h : applySeq log a ops = some b) :
    balanced b ∧ balanced (process_account a) :=
  ⟨applySeq_balanced ops h hb, replay_balanced a.transaction_log a hb⟩

def w1acc : Account := testAccount [.Deposit 1 100, .Withdraw 2 30]

def w1res : Account :=
  { id := 1, available_funds := 70, held_funds := 0, total_funds := 70,
    locked := false, in_dispute := false, last_processed_transaction := 2,
    transaction_log := [.Deposit 1 100, .Withdraw 2 30] }

theorem processing_preserves_balance_witness :
    balanced w1res ∧ balanced (process_account w1acc) :=
  processing_preserves_balance w1acc.transaction_log w1acc.transaction_log
    w1acc w1res
    (by norm_num [balanced, w1acc, testAccount])
    (by simp [applySeq, applyOp, w1acc, w1res, testAccount]; norm_num)

/-- Claim C2: when a Dispute, Resolve, or Chargeback operation references
a transaction id that the log lookup cannot resolve to an amount (the id
is not found, or is found only on a Dispute/Resolve/Chargeback entry),
replay of all remaining operations for the account is aborted, not just
the offending operation skipped: `process_account` returns exactly the
balances accumulated before the aborting operation, silently — the
function is total and reports nothing. -/
theorem lookup_failure_aborts_replay
    (a b : Account) (applied rest : List TransactionOp)
    (c : TransactionOp) (id : Nat)
    (hc : c = .Dispute id ∨ c = .Resolve id ∨ c = .Chargeback id)
    (hlog : a.transaction_log = applied ++ c :: rest)
    (h1 : applySeq a.transaction_log a applied = some b)
    (h2 : (find_transaction id a.transaction_log).bind
      find_transaction_amount = none) :
    process_account a = b := by
  unfold process_account
  rw [hlog] at h1 h2 ⊢
  have hnone := applyOp_control_none h2 b
  rcases hc with hc | hc | hc <;> subst hc
  · exact replay_abort applied h1 hnone.1 rest
  · exact replay_abort applied h1 hnone.2.1 rest
  · exact replay_abort applied h1 hnone.2.2 rest

def w2acc : Account := testAccount [.Deposit 1 100, .Dispute 2]

def w2res : Account :=
  { id := 1, available_funds := 100, held_funds := 0, total_funds := 100,
    locked := false, in_dispute := false, last_processed_transaction := 1,
    transaction_log := [.Deposit 1 100, .Dispute 2] }

theorem lookup_failure_aborts_replay_witness :
    process_account w2acc = w2res :=
  lookup_failure_aborts_replay w2acc w2res [.Deposit 1 100] []
    (.Dispute 2) 2 (Or.inl rfl) rfl
    (by simp [applySeq, applyOp, w2acc, w2res, testAccount])
    (by simp [find_transaction, find_transaction_amount, w2acc, testAccount])

/-- Claim C3 counterexample: on an account whose log is the single
operation `Dispute 1` the lookup fails (the id resolves only to the
Dispute entry itself), replay aborts, and `process_account` returns with
the pending log not cleared — refuting the claim that the log is empty
after every replay, including aborted ones. -/
theorem aborted_replay_leaves_log :
    (process_account (testAccount [.Dispute 1])).transaction_log ≠ [] := by
  simp [process_account, replay, applyOp, find_transaction,
    find_transaction_amount, testAccount]

/-- Claim C3 amended: the pending log is cleared after replay only when
every operation fully applies; when replay is aborted by a lookup
failure, the log is left exactly as it was, not cleared. -/
theorem log_cleared_iff_replay_completes (a : Account) :
    (∀ b, applySeq a.transaction_log a a.transaction_log = some b →
      (process_account a).transaction_log = []) ∧
    (applySeq a.transaction_log a a.transaction_log = none →
      (process_account a).transaction_log = a.transaction_log) := by
  constructor
  · intro b h
    unfold process_account
    rw [replay_of_applySeq_some _ h]
  · intro h
    unfold process_account
    exact replay_of_applySeq_none _ a h

theorem log_cleared_iff_replay_completes_witness :
    (process_account w1acc).transaction_log = [] :=
  (log_cleared_iff_replay_completes w1acc).1 w1res
    (by simp [applySeq, applyOp, w1acc, w1res, testAccount]; norm_num)

/-- Claim C4: holding the input stream fixed, running with the in-memory
setting (`one_pass = true`) and with the persistent setting
(`one_pass = false`) produces identical finalized output, row for row.
In the source the entire in-memory branch of `run` is commented out, so
the boolean is received but never consulted and both settings execute
the same persistent-backend path. -/
theorem backend_choice_does_not_change_output (records : List RawRecord) :
    run true records = run false records := rfl

/-- Claim C5: when `Dispute id` successfully resolves through the log
lookup to an operation with an extractable amount `A` (necessarily a
Deposit or Withdraw), applying it moves exactly `A` from available to
held, leaves total unchanged, sets the dispute flag, and records `id` as
the last processed transaction. -/
theorem dispute_holds_exact_amount
    (log : List TransactionOp) (a a' : Account) (id : Nat)
    (op : TransactionOp) (A : ℚ)
    (hfind : find_transaction id log = some op)
    (hamt : find_transaction_amount op = some A)
    (happ : applyOp log a (.Dispute id) = some a') :
    a'.available_funds = a.available_funds - A ∧
    a'.held_funds = a.held_funds + A ∧
    a'.total_funds = a.total_funds ∧
    a'.in_dispute = true ∧
    a'.last_processed_transaction = id := by
  rw [applyOp_Dispute, hfind] at happ
  simp only [Option.some_bind, hamt, Option.map_some',
    Option.some.injEq] at happ
  subst happ
  exact ⟨rfl, rfl, rfl, rfl, rfl⟩

def w5dis : Account :=
  { id := 1, available_funds := -25, held_funds := 25, total_funds := 0,
    locked := false, in_dispute := true, last_processed_transaction := 4,
    transaction_log := [] }

theorem dispute_holds_exact_amount_witness :
    w5dis.available_funds = (emptyAccount 1).available_funds - 25 ∧
    w5dis.held_funds = (emptyAccount 1).held_funds + 25 ∧
    w5dis.total_funds = (emptyAccount 1).total_funds ∧
    w5dis.in_dispute = true ∧
    w5dis.last_processed_transaction = 4 :=
  dispute_holds_exact_amount [.Deposit 4 25] (emptyAccount 1) w5dis 4
    (.Deposit 4 25) 25
    (by simp [find_transaction])
    (by simp [find_transaction_amount])
    (by rw [applyOp_Dispute]
        norm_num [find_transaction, find_transaction_amount, emptyAccount,
          w5dis])

/-- Claim C6: when `Resolve id` directly follows a successful
`Dispute id` that held amount `A`, the Resolve reverses the hold exactly:
held decreases by `A`, available increases by `A`, total is unchanged,
and available and held return to their pre-dispute values (the lookup, on
the unchanged log, finds the same amount both times). -/
theorem resolve_reverses_hold
    (log : List TransactionOp) (a a₁ a₂ : Account) (id : Nat)
    (op : TransactionOp) (A : ℚ)
    (hfind : find_transaction id log = some op)
    (hamt : find_transaction_amount op = some A)
    (h1 : applyOp log a (.Dispute id) = some a₁)
    (h2 : applyOp log a₁ (.Resolve id) = some a₂) :
    a₂.held_funds = a₁.held_funds - A ∧
    a₂.available_funds = a₁.available_funds + A ∧
    a₂.total_funds = a₁.total_funds ∧
    a₂.held_funds = a.held_funds ∧
    a₂.available_funds = a.available_funds ∧
    a₂.total_funds = a.total_funds := by
  rw [applyOp_Dispute, hfind] at h1
  rw [applyOp_Resolve, hfind] at h2
  simp only [Option.some_bind, hamt, Option.map_some',
    Option.some.injEq] at h1 h2
  subst h1
  subst h2
  refine ⟨rfl, rfl, rfl, ?_, ?_, rfl⟩
  · show a.held_funds + A - A = a.held_funds
    ring
  · show a.available_funds - A + A = a.available_funds
    ring

def w6dis : Account :=
  { id := 1, available_funds := -40, held_funds := 40, total_funds := 0,
    locked := false, in_dispute := true, last_processed_transaction := 5,
    transaction_log := [] }

def w6resv : Account :=
  { id := 1, available_funds := 0, held_funds := 0, total_funds := 0,
    locked := false, in_dispute := true, last_processed_transaction := 5,
    transaction_log := [] }

theorem resolve_reverses_hold_witness :
    w6resv.held_funds = w6dis.held_funds - 40 ∧
    w6resv.available_funds = w6dis.available_funds + 40 ∧
    w6resv.total_funds = w6dis.total_funds ∧
    w6resv.held_funds = (testAccount []).held_funds ∧
    w6resv.available_funds = (testAccount []).available_funds ∧
    w6resv.total_funds = (testAccount []).total_funds :=
  resolve_reverses_hold [.Deposit 5 40] (testAccount []) w6dis w6resv 5
    (.Deposit 5 40) 40
    (by simp [find_transaction])
    (by simp [find_transaction_amount])
    (by rw [applyOp_Dispute]
        norm_num [find_transaction, find_transaction_amount, testAccount,
          w6dis])
    (by rw [applyOp_Resolve]
        norm_num [find_transaction, find_transaction_amount, w6dis,
          w6resv])

def cex7 : Account :=
  testAccount [.Deposit 1 100, .Dispute 1, .Chargeback 1, .Deposit 2 50]

def cex7locked : Account :=
  { id := 1, available_funds := 0, held_funds := 0, total_funds := 0,
    locked := true, in_dispute := true, last_processed_transaction := 1,
    transaction_log :=
      [.Deposit 1 100, .Dispute 1, .Chargeback 1, .Deposit 2 50] }

def cex7after : Account :=
  { cex7locked with
    available_funds := 50
    total_funds := 50
    last_processed_transaction := 2 }

/-- Claim C7 counterexample: after the chargeback in the log
`[Deposit(1,100), Dispute(1), Chargeback(1), Deposit(2,50)]` the account
is locked with zero balances, yet the subsequent Deposit(2,50) is still
applied and changes available and total — refuting the clause that no
further balance-changing operation alters a locked account. -/
theorem locked_account_balances_still_change :
    applySeq cex7.transaction_log cex7
        [.Deposit 1 100, .Dispute 1, .Chargeback 1] = some cex7locked ∧
    cex7locked.locked = true ∧
    applyOp cex7.transaction_log cex7locked (.Deposit 2 50) =
      some cex7after ∧
    process_account cex7 = { cex7after with transaction_log := [] } ∧
    cex7after.available_funds ≠ cex7locked.available_funds ∧
    cex7after.total_funds ≠ cex7locked.total_funds := by
  refine ⟨?_, rfl, ?_, ?_, ?_, ?_⟩
  · norm_num [applySeq, applyOp, find_transaction, find_transaction_amount,
      cex7, cex7locked, testAccount]
  · norm_num [applyOp, cex7, cex7locked, cex7after, testAccount]
  · norm_num [process_account, replay, applyOp, find_transaction,
      find_transaction_amount, cex7, cex7locked, cex7after, testAccount]
  · norm_num [cex7after, cex7locked]
  · norm_num [cex7after, cex7locked]

/-- Claim C7 amended: when `Chargeback id` successfully resolves through
the log lookup to an amount `A`, it reduces held and total by exactly
`A`, leaves available unchanged, records `id`, and sets locked — and the
locked flag is permanent: no fully-applied operation ever clears it. The
original clause that no later balance-changing operation alters a locked
account is dropped: the code has no post-lock guard (see the
counterexample). -/
theorem chargeback_reduces_held_total_and_locks
    (log : List TransactionOp) (a a' : Account) (id : Nat)
    (op : TransactionOp) (A : ℚ)
    (hfind : find_transaction id log = some op)
    (hamt : find_transaction_amount op = some A)
    (happ : applyOp log a (.Chargeback id) = some a') :
    a'.held_funds = a.held_funds - A ∧
    a'.total_funds = a.total_funds - A ∧
    a'.available_funds = a.available_funds ∧
    a'.locked = true ∧
    a'.last_processed_transaction = id ∧
    (∀ b t b', b.locked = true → applyOp log b t = some b' →
      b'.locked = true) := by
  rw [applyOp_Chargeback, hfind] at happ
  simp only [Option.some_bind, hamt, Option.map_some',
    Option.some.injEq] at happ
  subst happ
  exact ⟨rfl, rfl, rfl, rfl, rfl,
    fun b t b' hb h => applyOp_locked_mono h hb⟩

def w7chg : Account :=
  { id := 1, available_funds := 0, held_funds := -60, total_funds := -60,
    locked := true, in_dispute := false, last_processed_transaction := 6,
    transaction_log := [] }

theorem chargeback_reduces_held_total_and_locks_witness :
    w7chg.held_funds = (emptyAccount 1).held_funds - 60 ∧
    w7chg.total_funds = (emptyAccount 1).total_funds - 60 ∧
    w7chg.available_funds = (emptyAccount 1).available_funds ∧
    w7chg.locked = true ∧
    w7chg.last_processed_transaction = 6 ∧
    (∀ b t b', b.locked = true →
      applyOp [TransactionOp.Withdraw 6 60] b t = some b' →
      b'.locked = true) :=
  chargeback_reduces_held_total_and_locks [.Withdraw 6 60]
    (emptyAccount 1) w7chg 6 (.Withdraw 6 60) 60
    (by simp [find_transaction])
    (by simp [find_transaction_amount])
    (by rw [applyOp_Chargeback]
        norm_num [find_transaction, find_transaction_amount, emptyAccount,
          w7chg])

def cex8 : Account := testAccount [.Deposit 1 100, .Deposit 2 50, .Dispute 1]

def cex8res : Account :=
  { id := 1, available_funds := 50, held_funds := 100, total_funds := 150,
    locked := false, in_dispute := true, last_processed_transaction := 1,
    transaction_log := [.Deposit 1 100, .Deposit 2 50, .Dispute 1] }

/-- Claim C8 counterexample: replaying
`[Deposit(1,100), Deposit(2,50), Dispute(1)]` applies every operation,
and the final `last_processed_transaction` is 1, written by the Dispute;
the most recently applied value-moving or chargeback operation is
Deposit(2,50), so the claim predicts 2 — refuting the clause that no
operation kind other than Deposit/Withdraw/Chargeback updates the
field. -/
theorem dispute_also_updates_last_processed :
    applySeq cex8.transaction_log cex8 cex8.transaction_log =
      some cex8res ∧
    (process_account cex8).last_processed_transaction = 1 ∧
    lastValueMovingOrChargebackId cex8.last_processed_transaction
      cex8.transaction_log = 2 ∧
    (1 : Nat) ≠ 2 := by
  refine ⟨?_, ?_, ?_, ?_⟩
  · norm_num [applySeq, applyOp, find_transaction, find_transaction_amount,
      cex8, cex8res, testAccount]
  · norm_num [process_account, replay, applyOp, find_transaction,
      find_transaction_amount, cex8, testAccount]
  · norm_num [lastValueMovingOrChargebackId, cex8, testAccount]
  · norm_num

/-- Claim C8 amended: after any fully-applied run of operations,
`last_processed_transaction` equals the transaction id of the most
recently applied operation of any kind other than Resolve — Deposit,
Withdraw and Chargeback as the claim states, but also Dispute; Resolve
alone leaves the field untouched. -/
theorem last_processed_tracks_non_resolve
    (log ops : List TransactionOp) (a b : Account)
    (h : applySeq log a ops = some b) :
    b.last_processed_transaction =
      lastNonResolveId a.last_processed_transaction ops :=
  applySeq_last ops h

def w8acc : Account := testAccount [.Deposit 3 10, .Resolve 3]

def w8res : Account :=
  { id := 1, available_funds := 20, held_funds := -10, total_funds := 10,
    locked := false, in_dispute := false, last_processed_transaction := 3,
    transaction_log := [.Deposit 3 10, .Resolve 3] }

theorem last_processed_tracks_non_resolve_witness :
    w8res.last_processed_transaction =
      lastNonResolveId w8acc.last_processed_transaction
        w8acc.transaction_log :=
  last_processed_tracks_non_resolve w8acc.transaction_log
    w8acc.transaction_log w8acc w8res
    (by norm_num [applySeq, applyOp, find_transaction,
      find_transaction_amount, w8acc, w8res, testAccount])

/-- Claim C9: `process_account` is idempotent on an already-drained
account: when the pending log is empty the loop body never runs and the
final clear is a no-op, so every field is returned unchanged. -/
theorem process_account_noop_on_drained
    (a : Account) (h : a.transaction_log = []) :
    process_account a = a := by
  unfold process_account
  rw [h]
  show ({ a with transaction_log := [] } : Account) = a
  rw [← h]

theorem process_account_noop_on_drained_witness :
    process_account (emptyAccount 7) = emptyAccount 7 :=
  process_account_noop_on_drained (emptyAccount 7) rfl

def negAcc : Account := testAccount [.Deposit 1 100, .Resolve 1]

/-- Claim C10: the state machine keeps no record of which transactions
are under dispute. Whenever the lookup for `Resolve id` finds an
operation with amount `A`, the Resolve moves `A` from held to available —
no hypothesis about any prior Dispute is needed — and on the log
`[Deposit(1,100), Resolve(1)]`, which contains no Dispute at all, replay
drives held_funds to -100, strictly negative. -/
theorem resolve_needs_no_dispute_record
    (log : List TransactionOp) (a a' : Account) (id : Nat)
    (op : TransactionOp) (A : ℚ)
    (hfind : find_transaction id log = some op)
    (hamt : find_transaction_amount op = some A)
    (happ : applyOp log a (.Resolve id) = some a') :
    a'.held_funds = a.held_funds - A ∧
    a'.available_funds = a.available_funds + A ∧
    a'.total_funds = a.total_funds ∧
    negAcc.transaction_log = [.Deposit 1 100, .Resolve 1] ∧
    (process_account negAcc).held_funds = -100 ∧
    (process_account negAcc).held_funds < 0 := by
  rw [applyOp_Resolve, hfind] at happ
  simp only [Option.some_bind, hamt, Option.map_some',
    Option.some.injEq] at happ
  subst happ
  refine ⟨rfl, rfl, rfl, rfl, ?_, ?_⟩
  · norm_num [process_account, replay, applyOp, find_transaction,
      find_transaction_amount, negAcc, testAccount]
  · norm_num [process_account, replay, applyOp, find_transaction,
      find_transaction_amount, negAcc, testAccount]

def w10res : Account :=
  { id := 1, available_funds := 15, held_funds := -15, total_funds := 0,
    locked := false, in_dispute := false, last_processed_transaction := 0,
    transaction_log := [] }

theorem resolve_needs_no_dispute_record_witness :
    w10res.held_funds = (emptyAccount 1).held_funds - 15 ∧
    w10res.available_funds = (emptyAccount 1).available_funds + 15 ∧
    w10res.total_funds = (emptyAccount 1).total_funds ∧
    negAcc.transaction_log = [.Deposit 1 100, .Resolve 1] ∧
    (process_account negAcc).held_funds = -100 ∧
    (process_account negAcc).held_funds < 0 :=
  resolve_needs_no_dispute_record [.Withdraw 9 15] (emptyAccount 1)
    w10res 9 (.Withdraw 9 15) 15
    (by simp [find_transaction])
    (by simp [find_transaction_amount])
    (by rw [applyOp_Resolve]
        norm_num [find_transaction, find_transaction_amount, emptyAccount,
          w10res])
